import Mathlib

/-!
Verification of the spine-port tooling (type-scoped extraction, diffing and
porting-plan generation) against its natural-language specification.

The definitions below are shallow embeddings of the JavaScript sources:
  - `read-java-type-diff.js` : type locator, range extraction for diffing,
    content-identity matching and the two-cursor output walk;
  - `read-java-type.js`      : type locator and range extraction command;
  - `generate-porting-plan.js` (the unnamed source file): symbol-table driven
    plan builder, candidate-file search, orderings, and the top-level run flow;
  - `compile-cpp.js`         : the compilation-check command.

JavaScript arrays become `List`, objects become structures, the 1-based
line numbers of the tools are kept as such, exceptions become `Except`,
and `null`/absent fields become `Option`.  JS `Array.prototype.sort` with a
comparator is modelled by `List.insertionSort` on the corresponding
non-strict relation (stable, sorted with respect to the comparator, as the
JS spec guarantees).  `String.prototype.localeCompare` is modelled by the
lexicographic order on strings.
-/

namespace SpinePort

/-- Kinds of symbols recorded by the external indexer. -/
inductive SKind where
  | class_
  | interface_
  | enum_
  | method
  | field
  | package
  | other
deriving DecidableEq, Repr

/-- A location carrying only a file path (the `definition` field of a symbol). -/
structure Loc where
  file : String
deriving DecidableEq, Repr

mutual
/-- A node of the indexer output tree (`Symbol` of the spec data model).
Line numbers are 1-based and inclusive, as in the JSON symbol tables.  The
child sequence is a dedicated list type so that the tree recursions of the
scripts can be expressed as plain structural recursion. -/
inductive Symbol where
  | mk (name : String) (kind : SKind) (file : String)
       (startLine endLine : Nat) (definition : Option Loc)
       (children : SymList)

/-- The ordered `children` sequence of a symbol. -/
inductive SymList where
  | nil
  | cons (s : Symbol) (rest : SymList)
end

def Symbol.name : Symbol → String
  | .mk n _ _ _ _ _ _ => n

def Symbol.kind : Symbol → SKind
  | .mk _ k _ _ _ _ _ => k

def Symbol.file : Symbol → String
  | .mk _ _ f _ _ _ _ => f

def Symbol.startLine : Symbol → Nat
  | .mk _ _ _ s _ _ _ => s

def Symbol.endLine : Symbol → Nat
  | .mk _ _ _ _ e _ _ => e

def Symbol.definition : Symbol → Option Loc
  | .mk _ _ _ _ _ d _ => d

def Symbol.children : Symbol → SymList
  | .mk _ _ _ _ _ _ cs => cs

/-- The child sequence as an ordinary list (for the non-recursive child
loops of the scripts and for statements about membership). -/
def SymList.toList : SymList → List Symbol
  | .nil => []
  | .cons s rest => s :: SymList.toList rest

/-- Convenience constructor from an ordinary list. -/
def SymList.ofList : List Symbol → SymList
  | [] => .nil
  | s :: rest => .cons s (SymList.ofList rest)

/-- The three kinds that denote a type declaration. -/
def isTypeKind (k : SKind) : Bool :=
  k = SKind.class_ ∨ k = SKind.interface_ ∨ k = SKind.enum_

/-! ## String primitives

The JS string operations are embedded as structurally recursive functions on
the underlying character lists, so that every concrete run of the embedded
code can be evaluated inside the kernel. -/

/-- JS `String.prototype.trim`: strip whitespace from both ends. -/
def trimStr (s : String) : String :=
  ⟨((s.data.dropWhile (fun c => c.isWhitespace)).reverse.dropWhile
      (fun c => c.isWhitespace)).reverse⟩

/-- JS `String.prototype.startsWith`. -/
def startsWithStr (s pat : String) : Bool := pat.data.isPrefixOf s.data

/-- JS `String.prototype.endsWith`. -/
def endsWithStr (s pat : String) : Bool := pat.data.reverse.isPrefixOf s.data.reverse

/-- Substring occurrence on character lists. -/
def containsSubList (pat : List Char) (l : List Char) : Bool :=
  pat.isPrefixOf l ||
    (match l with
     | [] => false
     | _ :: rest => containsSubList pat rest)

/-- JS `String.prototype.includes`. -/
def containsSub (s pat : String) : Bool := containsSubList pat.data s.data

/-- Sign-valued lexicographic comparison of character lists by code point,
the model of JS `localeCompare`. -/
def cmpChars : List Char → List Char → Int
  | [], [] => 0
  | [], _ :: _ => -1
  | _ :: _, [] => 1
  | a :: as, b :: bs =>
    if a.toNat < b.toNat then -1
    else if b.toNat < a.toNat then 1
    else cmpChars as bs

/-- Sign-valued comparison on strings (`localeCompare`). -/
def cmpStr (x y : String) : Int := cmpChars x.data y.data

/-- The non-strict string order induced by `cmpStr`. -/
def strLe (x y : String) : Prop := cmpStr x y ≤ 0

instance : DecidableRel strLe := fun x y => by unfold strLe; infer_instance

/-- One element of an `ExtractedRange`: an original 1-based line number
(or the sentinel `-1`) together with the line content.  Mirrors the
`{lineNum, content}` objects built by `extractTypeContent` in
`read-java-type-diff.js`. -/
structure Entry where
  lineNum : Int
  content : String
deriving DecidableEq, Repr

/-- One line of the printed diff, tagged the way `read-java-type-diff.js`
prefixes it (`+`, `-`, a space, or a bare summary line). -/
inductive DiffLine where
  | added (s : String)
  | removed (s : String)
  | unchanged (s : String)
  | summary (s : String)
deriving DecidableEq, Repr

/-! ## Type Differ (`read-java-type-diff.js`, lines 215-287)

The first pass builds content-to-indices multi-maps (`oldContentMap`,
`newContentMap`) over the *entire* extracted ranges and greedily claims, for
each new line in order, the first unclaimed old index holding identical
content.  Looking up the multi-map and scanning its index list for the first
unclaimed index is embedded directly as `findUnclaimed`: the first old index
whose entry has equal content and is not yet matched. -/

/-- First index of an unmatched entry with the given content, over the old
range zipped with its matched flags. -/
def findUnclaimed : List (Entry × Bool) → String → Option Nat
  | [], _ => none
  | (e, m) :: rest, c =>
    if m = false ∧ e.content = c then some 0
    else (findUnclaimed rest c).map (· + 1)

/-- First matching pass of the differ: walks the new entries in order and
claims, for each, the first unclaimed old index with identical content.
Returns the `oldMatched` flags and the `newMatched` flags (in new-entry
order).  Embeds lines 237-253 of `read-java-type-diff.js`. -/
def firstPassAux (old : List Entry) (oldM : List Bool) : List Entry → List Bool × List Bool
  | [] => (oldM, [])
  | e :: rest =>
    match findUnclaimed (old.zip oldM) e.content with
    | some k =>
      let r := firstPassAux old (oldM.set k true) rest
      (r.1, true :: r.2)
    | none =>
      let r := firstPassAux old oldM rest
      (r.1, false :: r.2)

/-- The full first pass starting from all-unmatched old flags. -/
def firstPass (oldR newR : List Entry) : List Bool × List Bool :=
  firstPassAux oldR (List.replicate oldR.length false) newR

/-- Two-cursor output walk of the differ (lines 256-287 of
`read-java-type-diff.js`), on the ranges zipped with their matched flags:
old summary entries are skipped, new summary entries are emitted as
`summary`, unmatched old lines as `removed`, unmatched new lines as
`added`, and matched pairs as `unchanged`. -/
def walk : List (Entry × Bool) → List (Entry × Bool) → List DiffLine
  | [], [] => []
  | [], (f, _) :: newRest =>
    if f.lineNum = -1 then DiffLine.summary f.content :: walk [] newRest
    else DiffLine.added f.content :: walk [] newRest
  | (e, _em) :: oldRest, [] =>
    if e.lineNum = -1 then walk oldRest []
    else DiffLine.removed e.content :: walk oldRest []
  | (e, em) :: oldRest, (f, fm) :: newRest =>
    if e.lineNum = -1 then walk oldRest ((f, fm) :: newRest)
    else if f.lineNum = -1 then DiffLine.summary f.content :: walk ((e, em) :: oldRest) newRest
    else if em = false then DiffLine.removed e.content :: walk oldRest ((f, fm) :: newRest)
    else if fm = false then DiffLine.added f.content :: walk ((e, em) :: oldRest) newRest
    else DiffLine.unchanged f.content :: walk oldRest newRest
termination_by old new => old.length + new.length

/-- Full differ on two extracted ranges: the empty-old case tags every
non-sentinel new line `added` and sentinels `summary` (lines 201-211);
otherwise the first pass runs and the two-cursor walk produces the output
(lines 215-287). -/
def typeDiff (oldR newR : List Entry) : List DiffLine :=
  if oldR.length = 0 then
    newR.map (fun e => if e.lineNum = -1 then DiffLine.summary e.content else DiffLine.added e.content)
  else
    let p := firstPass oldR newR
    walk (oldR.zip p.1) (newR.zip p.2)

/-! ## Range extraction for diffing (`read-java-type-diff.js`, `extractTypeContent`)

Backward scans over the file lines are embedded with the number of remaining
0-based indices as the recursion argument: a call with first argument `k+1`
processes 0-based index `k` (the JS loops run `for (let i = start - 2; i >= 0;
i--)`, so the scan over indices `start-2 .. 0` begins with argument `start-1`).
Accumulators hold the current 1-based boundary value. -/

/-- Leading whitespace of a line, the `match(/^(\s*)/)` of the sources. -/
def leadingWs (s : String) : String := ⟨s.data.takeWhile (fun c => c.isWhitespace)⟩

/-- Backward javadoc scan of `extractTypeContent` (lines 95-111): a `/**`
opener stops the scan and becomes the new start; doc-continuation and
annotation lines move the start; blank lines are crossed without moving it;
anything else stops the scan keeping the current start. -/
def diffScanStart (content : List String) : Nat → Nat → Nat
  | 0, acc => acc
  | k + 1, acc =>
    let t := trimStr (content.getD k "")
    if startsWithStr t "/**" then k + 1
    else if ¬ startsWithStr t "*" ∧ t ≠ "" ∧ ¬ startsWithStr t "@" then acc
    else if startsWithStr t "*" ∨ startsWithStr t "@" then diffScanStart content k (k + 1)
    else diffScanStart content k acc

/-- Backward scan before an inner type (lines 120-130): blank lines and
`/**`/`@` lines move the start, `*` continuation lines are crossed, any other
line stops the scan. -/
def diffScanInnerStart (content : List String) : Nat → Nat → Nat
  | 0, acc => acc
  | k + 1, acc =>
    let t := trimStr (content.getD k "")
    if t = "" then diffScanInnerStart content k (k + 1)
    else if ¬ startsWithStr t "*" ∧ ¬ startsWithStr t "/**" ∧ ¬ startsWithStr t "@" then acc
    else if startsWithStr t "/**" ∨ startsWithStr t "@" then diffScanInnerStart content k (k + 1)
    else diffScanInnerStart content k acc

/-- Forward scan over blank lines after an inner type.  The first argument is
the number of 0-based indices below the loop bound that remain, the second the
current index, the third the accumulated 1-based end. -/
def scanBlanksFwd (content : List String) : Nat → Nat → Nat → Nat
  | 0, _, acc => acc
  | fuel + 1, i, acc =>
    if trimStr (content.getD i "") = "" then scanBlanksFwd content fuel (i + 1) (i + 1)
    else acc

/-- Line-emission loop of `extractTypeContent` (lines 155-178), carrying the
`skipUntil` cursor (initially `-1`): at each 1-based line the first inner
range containing it (ranges are sorted by start) resets `skipUntil` to that
range's end, and the line is emitted only when past `skipUntil`. -/
def diffExtractLoop (content : List String) (ranges : List (Nat × Nat)) :
    Nat → Nat → Int → List Entry
  | 0, _, _ => []
  | fuel + 1, i, skipUntil =>
    let lineNum : Int := (i : Int) + 1
    let su : Int :=
      ((ranges.find? (fun r => decide ((r.1 : Int) ≤ lineNum ∧ lineNum ≤ (r.2 : Int)))).map
        (fun r => (r.2 : Int))).getD skipUntil
    if lineNum ≤ su then diffExtractLoop content ranges fuel (i + 1) su
    else ⟨lineNum, content.getD i ""⟩ :: diffExtractLoop content ranges fuel (i + 1) su

/-- Extraction of one type's lines for diffing (`extractTypeContent`,
`read-java-type-diff.js` lines 88-194): javadoc-extended start, inner-type
exclusion ranges (javadoc-extended start, trailing blank lines absorbed),
emission of the surviving lines, and a trailing sentinel entry
(`lineNum = -1`) summarising the excluded inner types. -/
def extractTypeContent (content : List String) (typeInfo : Symbol) : List Entry :=
  if content.length = 0 then []
  else
    let startLine := diffScanStart content (typeInfo.startLine - 1) typeInfo.startLine
    let endLine := typeInfo.endLine
    let innerRanges := (typeInfo.children.toList.filter (fun c => isTypeKind c.kind)).map (fun c =>
      let innerStart := diffScanInnerStart content (c.startLine - 1) c.startLine
      let innerEnd := scanBlanksFwd content (min endLine content.length - c.endLine) c.endLine c.endLine
      (innerStart, innerEnd))
    let sortedRanges := innerRanges.insertionSort (fun a b => a.1 ≤ b.1)
    let result := diffExtractLoop content sortedRanges
      (min endLine content.length - (startLine - 1)) (startLine - 1) (-1)
    if 0 < innerRanges.length then
      let count := innerRanges.length
      let classText := if count = 1 then "class" else "classes"
      let indent :=
        match result.getLast? with
        | some last => leadingWs last.content
        | none => ""
      result ++ [⟨-1, indent ++ "// " ++ toString count ++ " inner " ++ classText ++ " excluded from diff"⟩]
    else result

/-! ## Type Locator (`findType` of both command scripts) -/

mutual
/-- Recursive search of one symbol subtree: collects, in pre-order, every
descendant (the node itself included) whose name equals the query and whose
kind is not `package`, paired with its parent.  Embeds the `search` helper of
`findType` in `read-java-type.js` / `read-java-type-diff.js`. -/
def searchSym (typeName : String) (parent : Option Symbol) : Symbol → List (Symbol × Option Symbol)
  | .mk n k f st en d cs =>
    (if n = typeName ∧ k ≠ SKind.package then [(Symbol.mk n k f st en d cs, parent)] else []) ++
    searchSymList typeName (Symbol.mk n k f st en d cs) cs

/-- The child loop of `search`. -/
def searchSymList (typeName : String) (parent : Symbol) : SymList → List (Symbol × Option Symbol)
  | .nil => []
  | .cons c rest =>
    searchSym typeName (some parent) c ++ searchSymList typeName parent rest
end

/-- Search over all top-level symbols (`findType`). -/
def findType (symbols : List Symbol) (typeName : String) : List (Symbol × Option Symbol) :=
  (symbols.map (searchSym typeName none)).flatten

/-- Failure modes of a type lookup: not found, or ambiguous with the listing
of every match's file and kind that the commands print before exiting. -/
inductive LookupError where
  | notFound
  | ambiguous (ms : List (String × SKind))
deriving DecidableEq, Repr

/-- Type resolution of the extraction command (`read-java-type.js` lines
41-58): zero matches and multiple matches are reported errors; a unique match
is returned together with its `isInner` flag. -/
def readJavaTypeResolve (symbols : List Symbol) (typeName : String) :
    Except LookupError (Symbol × Bool) :=
  match findType symbols typeName with
  | [] => .error .notFound
  | [m] =>
    .ok (m.1, match m.2 with
      | some par => par.kind ≠ SKind.package
      | none => false)
  | ms => .error (.ambiguous (ms.map (fun m => (m.1.file, m.1.kind))))

/-- Type resolution of the diff command (`read-java-type-diff.js` lines
42-59): the new table must resolve uniquely (zero or several matches are
reported errors); the old symbol is `oldMatches[0]` when present, with no
ambiguity check on the old table. -/
def readJavaTypeDiffResolve (oldSymbols newSymbols : List Symbol) (typeName : String) :
    Except LookupError (Symbol × Option Symbol) :=
  let oldMatches := findType oldSymbols typeName
  match findType newSymbols typeName with
  | [] => .error .notFound
  | [m] => .ok (m.1, (oldMatches.head?).map (fun p => p.1))
  | ms => .error (.ambiguous (ms.map (fun m => (m.1.file, m.1.kind))))

/-! ## Range Extractor command (`read-java-type.js`, lines 64-206)

Line array is 0-based, line numbers 1-based, as in the script.  The printed
entries `"<padded lineNum>:<line>"` are modelled as `(lineNum, line)` pairs
(the 6-wide padding is presentation only), and the trailing inner-class
summary string is kept verbatim as a separate field. -/

/-- Backward javadoc scan of `read-java-type.js` (lines 102-125): a `/**`
opener stops the scan and becomes the new start; `*` continuation lines move
the start; blank lines and annotation lines are crossed without moving it;
anything else stops the scan. -/
def rjScanStart (lines : List String) : Nat → Nat → Nat
  | 0, acc => acc
  | k + 1, acc =>
    let t := trimStr (lines.getD k "")
    if startsWithStr t "/**" then k + 1
    else if startsWithStr t "*" then rjScanStart lines k (k + 1)
    else if t = "" then rjScanStart lines k acc
    else if startsWithStr t "@" then rjScanStart lines k acc
    else acc

/-- Backward scan before an inner type (lines 73-89): `/**` and `@` lines
move the start, blank and `*` lines are crossed, any other line stops. -/
def rjScanInnerStart (lines : List String) : Nat → Nat → Nat
  | 0, acc => acc
  | k + 1, acc =>
    let t := trimStr (lines.getD k "")
    if t ≠ "" ∧ ¬ startsWithStr t "*" ∧ ¬ startsWithStr t "/**" ∧ ¬ startsWithStr t "@" then acc
    else if startsWithStr t "/**" ∨ startsWithStr t "@" then rjScanInnerStart lines k (k + 1)
    else rjScanInnerStart lines k acc

/-- Backward scan over blank lines before an inner type (lines 134-141). -/
def scanBlanksBack (lines : List String) : Nat → Nat → Nat
  | 0, acc => acc
  | k + 1, acc =>
    if trimStr (lines.getD k "") = "" then scanBlanksBack lines k (k + 1) else acc

/-- Result of the extraction command: the emitted numbered lines and the
optional trailing summary string about removed inner classes. -/
structure ExtractResult where
  realLines : List (Nat × String)
  summary : Option String
deriving DecidableEq, Repr

/-- Body of the emission loop of `read-java-type.js` (lines 174-200): skip
lines that fall inside a skip range; otherwise capture the declaration
line's indentation and append the numbered line. -/
def rjStep (lines : List String) (skipRanges : List (Nat × Nat)) (typeStartLine : Nat)
    (acc : List (Nat × String) × String) (i : Nat) : List (Nat × String) × String :=
  let lineNum := i + 1
  if skipRanges.any (fun r => decide (r.1 ≤ lineNum ∧ lineNum ≤ r.2)) then acc
  else
    let indent := if lineNum = typeStartLine then leadingWs (lines.getD i "") else acc.2
    (acc.1 ++ [(lineNum, lines.getD i "")], indent)

/-- Full extraction of `read-java-type.js` (lines 64-206): inner-type ranges
with javadoc-extended starts (computed only for non-inner types), skip ranges
absorbing surrounding blank lines, javadoc-extended actual start, the
closing-brace recovery that pulls in the line just after the declared end
when it trims to a brace, the emission loop, and the summary note. -/
def rjExtract (lines : List String) (typeInfo : Symbol) (isInner : Bool) : ExtractResult :=
  let typeStartLine := typeInfo.startLine
  let typeEndLine := typeInfo.endLine
  let innerTypeRanges :=
    if isInner then []
    else
      ((typeInfo.children.toList.filter (fun c => isTypeKind c.kind)).map (fun c =>
        (rjScanInnerStart lines (c.startLine - 1) c.startLine, c.endLine))).insertionSort
        (fun a b => a.1 ≤ b.1)
  let skipRanges := innerTypeRanges.map (fun inner =>
    (scanBlanksBack lines (inner.1 - 1) inner.1,
     scanBlanksFwd lines (min lines.length (typeEndLine - 1) - inner.2) inner.2 inner.2))
  let actualStart := rjScanStart lines (typeStartLine - 1) typeStartLine
  let actualEnd :=
    if typeEndLine < lines.length ∧ trimStr (lines.getD typeEndLine "") = "\x7d" then typeEndLine + 1
    else typeEndLine
  let idxs := List.range' (actualStart - 1) (min actualEnd lines.length - (actualStart - 1))
  let emitted := idxs.foldl (rjStep lines skipRanges typeStartLine) ([], "")
  let skippedInnerCount := innerTypeRanges.length
  { realLines := emitted.1,
    summary :=
      if 0 < skippedInnerCount then
        some ("\n" ++ emitted.2 ++ "\t// " ++ toString skippedInnerCount ++
          " inner " ++ (if skippedInnerCount = 1 then "class" else "classes") ++ " removed")
      else none }

/-! ## Change Plan Builder (`generate-porting-plan.js`)

The builder's pure core: change-list processing, per-file type extraction,
candidate-file search and the two sort orders.  Paths from the git change
list are joined to the repository directory with a plain `"/"` (the `path.join`
of the script).  `localeCompare` is modelled by the lexicographic string
order, and `Array.prototype.sort` by the stable `List.insertionSort` on the
comparator's non-strict relation. -/

/-- Symbol-table file contents (the parsed `<runtime>.json`). -/
structure LspData where
  symbols : List Symbol

/-- One planned type (`extractTypesFromFile` output enriched by the builder).
The script's freshly extracted objects carry no `candidateFiles` field yet;
that is modelled by initialising it to `[]`. -/
structure TypeInfo where
  name : String
  kind : SKind
  startLine : Nat
  endLine : Nat
  isInner : Bool
  portingState : String
  candidateFiles : List String
deriving DecidableEq, Repr

/-- Generic-parameter suffix stripping (`generate-porting-plan.js` lines
156-160): the name up to the first opening angle bracket. -/
def stripGeneric (s : String) : String := ⟨s.data.takeWhile (fun c => c ≠ '<')⟩

mutual
/-- Recursive type collection (`extractInnerTypes`, lines 152-180): records
the symbol itself when it is a type, then recurses into every type-kind
child with `isInner = true`. -/
def extractInnerTypes (isInner : Bool) : Symbol → List TypeInfo
  | .mk n k _ st en _ cs =>
    (if isTypeKind k then
      [{ name := stripGeneric n, kind := k, startLine := st, endLine := en,
         isInner := isInner, portingState := "pending", candidateFiles := [] }]
     else []) ++ extractInnerTypesList cs

/-- The child loop of `extractInnerTypes`: only type-kind children are
recursed into. -/
def extractInnerTypesList : SymList → List TypeInfo
  | .nil => []
  | .cons c rest =>
    (if isTypeKind c.kind then extractInnerTypes true c else []) ++ extractInnerTypesList rest
end

/-- All types declared in one file (`extractTypesFromFile`, lines 148-191):
the top-level symbols of that file of type kind, each expanded by
`extractInnerTypes`. -/
def extractTypesFromFile (lspSymbols : List Symbol) (filePath : String) : List TypeInfo :=
  ((lspSymbols.filter (fun s => s.file = filePath ∧ isTypeKind s.kind)).map
    (extractInnerTypes false)).flatten

mutual
/-- Candidate collection over one symbol subtree (`searchSymbol` inside
`findCandidateFiles`, lines 109-137): on a same-named type, its declaring
file, its definition file when recorded, and the definition files of its
children; then recursion into all children. -/
def searchCandidates (typeName : String) : Symbol → List String
  | .mk n k f _ _ d cs =>
    (if n = typeName ∧ isTypeKind k then
      [f] ++ (match d with | some l => [l.file] | none => []) ++
      (cs.toList.filterMap (fun c => c.definition.map Loc.file))
     else []) ++ searchCandidatesList typeName cs

/-- The recursive child loop of `searchSymbol`. -/
def searchCandidatesList (typeName : String) : SymList → List String
  | .nil => []
  | .cons c rest => searchCandidates typeName c ++ searchCandidatesList typeName rest
end

/-- First-insertion-order deduplication, the JS `Set` accumulated during the
candidate traversal read back with `Array.from`. -/
def insertUnique (l : List String) (x : String) : List String :=
  if x ∈ l then l else l ++ [x]

/-- Deduplication keeping first occurrences, in traversal order. -/
def dedupKeepFirst (l : List String) : List String := l.foldl insertUnique []

/-- Candidate target files for a type name (`findCandidateFiles`, lines
103-145): empty when no target symbol table is loaded. -/
def findCandidateFiles (targetLsp : Option LspData) (typeName : String) : List String :=
  match targetLsp with
  | none => []
  | some lsp => dedupKeepFirst ((lsp.symbols.map (searchCandidates typeName)).flatten)

/-- Kind priority of the two sort comparators (`typeOrder` maps, lines 293
and 316): enum 0, interface 1, class 2. -/
def typeOrderNum : SKind → Nat
  | .enum_ => 0
  | .interface_ => 1
  | .class_ => 2
  | _ => 3

/-- Within-file type order (comparator at lines 294-299): kind priority
first, then name. -/
def typeLe (a b : TypeInfo) : Prop :=
  typeOrderNum a.kind < typeOrderNum b.kind ∨
    (typeOrderNum a.kind = typeOrderNum b.kind ∧ strLe a.name b.name)

instance : DecidableRel typeLe := fun a b => by unfold typeLe; infer_instance

/-- One work item of the plan (`PortingEntry`): the `types` field is absent
(`none`) when no reference symbol table was loaded or the file declares no
types. -/
structure PortingEntry where
  javaSourcePath : String
  types : Option (List TypeInfo)
deriving DecidableEq, Repr

/-- A deleted reference file recorded in the plan. -/
structure DeletedFile where
  filePath : String
  status : String
deriving DecidableEq, Repr

/-- The persisted plan (metadata fields are not modelled; no claim concerns
them). -/
structure PortingPlan where
  deletedFiles : List DeletedFile
  portingOrder : List PortingEntry
deriving DecidableEq, Repr

/-- Git change-list statuses as parsed from `git diff --name-status`. -/
inductive ChangeStatus where
  | A
  | M
  | D
  | other
deriving DecidableEq, Repr

/-- One parsed change-list line. -/
structure ChangeItem where
  status : ChangeStatus
  relativePath : String
deriving DecidableEq, Repr

/-- Sign-valued comparator on naturals, the `a - b` comparators of the
script collapsed to their sign. -/
def cmpNat (x y : Nat) : Int := if x < y then -1 else if x = y then 0 else 1

/-- The `a.types?.length || 0` accessor of the file-level comparator. -/
def entryNumTypes (e : PortingEntry) : Nat :=
  match e.types with
  | some ts => ts.length
  | none => 0

/-- The `a.types[0].kind` priority, defined only when a first type exists
(the comparator reads it only for single-type files). -/
def entryKindNum (e : PortingEntry) : Nat :=
  match e.types with
  | some (t :: _) => typeOrderNum t.kind
  | _ => 3

/-- File-level comparator (`portingOrder.sort`, lines 318-336): type count,
then kind priority for single-type files, then file path. -/
def cmpEntry (a b : PortingEntry) : Int :=
  if entryNumTypes a ≠ entryNumTypes b then cmpNat (entryNumTypes a) (entryNumTypes b)
  else if entryNumTypes a = 1 ∧ entryNumTypes b = 1 ∧ entryKindNum a ≠ entryKindNum b then
    cmpNat (entryKindNum a) (entryKindNum b)
  else cmpStr a.javaSourcePath b.javaSourcePath

/-- Non-strict file-level order induced by the comparator. -/
def entryLe (a b : PortingEntry) : Prop := cmpEntry a b ≤ 0

instance : DecidableRel entryLe := fun a b => by unfold entryLe; infer_instance

/-- Per-file enrichment (lines 289-308): extract the file's types, sort them
by kind priority then name, then attach candidate files and reset the
porting state; `none` when the file declares no types. -/
def buildTypes (refSymbols : List Symbol) (targetLsp : Option LspData) (absPath : String) :
    Option (List TypeInfo) :=
  let types := extractTypesFromFile refSymbols absPath
  if 0 < types.length then
    some ((types.insertionSort typeLe).map
      (fun t => { t with candidateFiles := findCandidateFiles targetLsp t.name,
                         portingState := "pending" }))
  else none

/-- The `types` field of a new porting entry (lines 288-309): enrichment
happens only when the reference symbol table was loaded. -/
def entryTypes (refLsp targetLsp : Option LspData) (absolutePath : String) :
    Option (List TypeInfo) :=
  match refLsp with
  | some lsp => buildTypes lsp.symbols targetLsp absolutePath
  | none => none

/-- Processing of one change line (lines 271-313): deletions are recorded
verbatim; added/modified Java files become porting entries, enriched only
when the reference symbol table is available. -/
def processChange (dir : String) (refLsp targetLsp : Option LspData)
    (acc : List DeletedFile × List PortingEntry) (it : ChangeItem) :
    List DeletedFile × List PortingEntry :=
  let absolutePath := dir ++ "/" ++ it.relativePath
  match it.status with
  | .D => (acc.1 ++ [⟨absolutePath, "pending"⟩], acc.2)
  | .A | .M =>
    if endsWithStr it.relativePath ".java" then
      (acc.1, acc.2 ++ [⟨absolutePath, entryTypes refLsp targetLsp absolutePath⟩])
    else acc
  | .other => acc

/-- The pure core of the plan run (lines 265-354): fold the change list,
then sort the porting order by the file-level comparator. -/
def buildPlan (dir : String) (refLsp targetLsp : Option LspData) (changes : List ChangeItem) :
    PortingPlan :=
  let p := changes.foldl (processChange dir refLsp targetLsp) ([], [])
  ⟨p.1, p.2.insertionSort entryLe⟩

/-! ## Run flow of the plan generator (`main` and `generateLspJson`)

Subprocess results and file-system state are supplied by an environment
record; an `Except` models a JS exception propagating to the `catch` of
`main`, which exits non-zero.  The symbol-table files read back by `main`
are independent environment fields: they may be absent or unparseable even
when generation was attempted (and may pre-exist from an earlier run). -/

/-- Outcome of one blocking subprocess invocation. -/
inductive ExecResult where
  | ok
  | fail
deriving DecidableEq, Repr

/-- `execSync`: a non-zero exit throws. -/
def execSyncE : ExecResult → Except String Unit
  | .ok => .ok ()
  | .fail => .error "subprocess exited non-zero"

/-- Per-runtime symbol-table generation (`generateLspJson`, lines 66-100).
The whole body runs inside a `try` whose `catch` (lines 97-99) only logs the
failure, so a failing indexer subprocess never escapes: the function returns
normally either way.  The returned flag records whether the output file was
generated. -/
def generateLspJson (res : ExecResult) : Bool :=
  match execSyncE res with
  | .ok _ => true
  | .error _ => false

/-- Environment of one plan-generation run. -/
structure RunEnv where
  llmGen : ExecResult
  refPathExists : Bool
  refIndexer : ExecResult
  targetPathExists : Bool
  targetIndexer : ExecResult
  refLspFile : Option LspData
  targetLspFile : Option LspData
  gitDiff : ExecResult
  changes : List ChangeItem
  dir : String

/-- Outcome of a run: `aborted` is the `catch` of `main` followed by
`process.exit(1)`. -/
inductive RunOutcome where
  | aborted
  | completed (plan : PortingPlan)

/-- Body of `main`'s `try` block (lines 196-395): the documentation
generation and the git diff are uncaught subprocess calls; the per-runtime
generation goes through `generateLspJson`, which swallows failures; loading
the two symbol tables catches its own parse errors (modelled by the
environment's `Option` fields); then the plan is built and written. -/
def mainTry (env : RunEnv) : Except String PortingPlan := do
  execSyncE env.llmGen
  let _refGenerated := if env.refPathExists then generateLspJson env.refIndexer else false
  let _targetGenerated := if env.targetPathExists then generateLspJson env.targetIndexer else false
  execSyncE env.gitDiff
  pure (buildPlan env.dir env.refLspFile env.targetLspFile env.changes)

/-- The whole run: an exception reaching `main`'s catch aborts with a
non-zero exit. -/
def mainRun (env : RunEnv) : RunOutcome :=
  match mainTry env with
  | .ok plan => .completed plan
  | .error _ => .aborted

/-! ## Compilation-check command (`compile-cpp.js`) -/

/-- State of the first-error scan of the compiler output (lines 46-49),
with `-1` sentinels as in the script. -/
structure ScanState where
  errorStart : Int
  errorEnd : Int
  inError : Bool
  noteCount : Nat
deriving DecidableEq, Repr

/-- The first-error extraction loop (lines 51-86): find the first line with
an error marker, track its associated notes, and stop at a blank line after
notes, at the next error, or at an unindented non-note line. -/
def scanErr : List String → Nat → ScanState → ScanState
  | [], _, st => st
  | l :: rest, i, st =>
    let st1 :=
      if containsSub l ": error:" ∧ st.errorStart = -1 then
        { st with errorStart := (i : Int), inError := true, noteCount := 0 }
      else st
    let st2 :=
      if st1.inError ∧ containsSub l ": note:" then
        { st1 with noteCount := st1.noteCount + 1, errorEnd := (i : Int) }
      else st1
    if st2.inError ∧ trimStr l = "" ∧ 0 < st2.noteCount then { st2 with errorEnd := (i : Int) }
    else if st2.inError ∧ st2.errorStart ≠ (i : Int) ∧ containsSub l ": error:" then
      { st2 with errorEnd := (i : Int) - 1 }
    else if st2.inError ∧ st2.errorStart ≠ -1 ∧ st2.errorStart < (i : Int) ∧
        ¬ startsWithStr l " " ∧ ¬ containsSub l ": note:" ∧ ¬ containsSub l ": error:" then
      { st2 with errorEnd := (i : Int) - 1 }
    else scanErr rest (i + 1) st2

/-- The print loop over `lines[errorStart..errorEnd]` (lines 95-97). -/
def sliceLines (ls : List String) (s e : Int) : List String :=
  (ls.drop s.toNat).take (e.toNat - s.toNat + 1)

/-- Environment of one compilation-check invocation. -/
structure CompileEnv where
  argc : Nat
  fileExists : Bool
  planSpineDir : Option String
  compileResult : Option (List String)
deriving DecidableEq, Repr

/-- Outcome: an explicit early `process.exit`, or the script running to its
end (exit code 0) with the printed lines. -/
inductive CompileOutcome where
  | exitEarly (code : Nat)
  | finished (output : List String)
deriving DecidableEq, Repr

/-- The whole command (`compile-cpp.js`): missing argument, missing input
file and unreadable plan metadata exit 1 early; a compiler failure is caught
(lines 41-103), its first diagnostic block or a 20-line fallback printed,
and the script falls off the end with exit code 0. -/
def compileCpp (env : CompileEnv) : CompileOutcome :=
  if env.argc < 3 then .exitEarly 1
  else if env.fileExists = false then .exitEarly 1
  else
    match env.planSpineDir with
    | none => .exitEarly 1
    | some _ =>
      match env.compileResult with
      | none => .finished ["✅ Compilation successful!"]
      | some outLines =>
        let st := scanErr outLines 0 ⟨-1, -1, false, 0⟩
        let st2 :=
          if st.errorStart ≠ -1 ∧ st.errorEnd = -1 then { st with errorEnd := st.errorStart }
          else st
        if st2.errorStart ≠ -1 then .finished (sliceLines outLines st2.errorStart st2.errorEnd)
        else .finished ("Compilation failed:" :: outLines.take 20)

/-- Exit code of an outcome. -/
def exitCode : CompileOutcome → Nat
  | .exitEarly c => c
  | .finished _ => 0

/-! ## Order lemmas for the two comparators -/

theorem cmpChars_le_total : ∀ a b : List Char, cmpChars a b ≤ 0 ∨ cmpChars b a ≤ 0 := by
  intro a
  induction a with
  | nil => intro b; cases b <;> simp [cmpChars]
  | cons x xs ih =>
    intro b
    cases b with
    | nil => simp [cmpChars]
    | cons y ys =>
      simp only [cmpChars]
      split_ifs <;> first | omega | exact ih ys

theorem cmpChars_le_trans :
    ∀ a b c : List Char, cmpChars a b ≤ 0 → cmpChars b c ≤ 0 → cmpChars a c ≤ 0 := by
  intro a
  induction a with
  | nil => intro b c _ _; cases c <;> simp [cmpChars]
  | cons x xs ih =>
    intro b c hab hbc
    cases b with
    | nil => simp [cmpChars] at hab
    | cons y ys =>
      cases c with
      | nil => simp [cmpChars] at hbc
      | cons z zs =>
        simp only [cmpChars] at hab hbc ⊢
        split_ifs at hab hbc ⊢ <;> first | omega | exact ih ys zs hab hbc

theorem strLe_total (x y : String) : strLe x y ∨ strLe y x := cmpChars_le_total x.data y.data

theorem strLe_trans {x y z : String} (h1 : strLe x y) (h2 : strLe y z) : strLe x z :=
  cmpChars_le_trans x.data y.data z.data h1 h2

instance : IsTotal TypeInfo typeLe :=
  ⟨fun a b => by
    unfold typeLe
    rcases Nat.lt_trichotomy (typeOrderNum a.kind) (typeOrderNum b.kind) with h | h | h
    · exact Or.inl (Or.inl h)
    · rcases strLe_total a.name b.name with hn | hn
      · exact Or.inl (Or.inr ⟨h, hn⟩)
      · exact Or.inr (Or.inr ⟨h.symm, hn⟩)
    · exact Or.inr (Or.inl h)⟩

instance : IsTrans TypeInfo typeLe :=
  ⟨fun a b c hab hbc => by
    unfold typeLe at hab hbc ⊢
    rcases hab with h1 | ⟨h1, h1n⟩ <;> rcases hbc with h2 | ⟨h2, h2n⟩
    · exact Or.inl (h1.trans h2)
    · exact Or.inl (h2 ▸ h1)
    · exact Or.inl (h1 ▸ h2)
    · exact Or.inr ⟨h1.trans h2, strLe_trans h1n h2n⟩⟩

theorem cmpNat_le_zero (x y : Nat) : cmpNat x y ≤ 0 ↔ x ≤ y := by
  unfold cmpNat; split_ifs <;> omega

/-- Characterisation of the file-level order in terms of its three keys. -/
theorem entryLe_iff (a b : PortingEntry) :
    entryLe a b ↔
      entryNumTypes a < entryNumTypes b ∨
      (entryNumTypes a = entryNumTypes b ∧
        ((entryNumTypes a = 1 ∧ entryKindNum a < entryKindNum b) ∨
         ((entryNumTypes a ≠ 1 ∨ entryKindNum a = entryKindNum b) ∧
          strLe a.javaSourcePath b.javaSourcePath))) := by
  unfold entryLe cmpEntry
  split_ifs with h1 h2
  · rw [cmpNat_le_zero]
    constructor
    · intro h; exact Or.inl (lt_of_le_of_ne h h1)
    · rintro (h | ⟨heq, _⟩)
      · exact le_of_lt h
      · exact absurd heq h1
  · rw [not_ne_iff] at h1
    rw [cmpNat_le_zero]
    constructor
    · intro h
      exact Or.inr ⟨h1, Or.inl ⟨h2.1, lt_of_le_of_ne h h2.2.2⟩⟩
    · rintro (h | ⟨_, (⟨_, hlt⟩ | ⟨hcond, _⟩)⟩)
      · omega
      · exact le_of_lt hlt
      · rcases hcond with hn | hk
        · exact absurd h2.1 hn
        · exact absurd hk h2.2.2
  · rw [not_ne_iff] at h1
    constructor
    · intro h
      refine Or.inr ⟨h1, Or.inr ⟨?_, h⟩⟩
      by_cases hn : entryNumTypes a = 1
      · right
        by_contra hk
        exact h2 ⟨hn, h1 ▸ hn, hk⟩
      · exact Or.inl hn
    · rintro (h | ⟨_, (⟨hn1, hklt⟩ | ⟨_, hle⟩)⟩)
      · omega
      · exact absurd ⟨hn1, h1 ▸ hn1, Nat.ne_of_lt hklt⟩ h2
      · exact hle

instance : IsTotal PortingEntry entryLe :=
  ⟨fun a b => by
    rw [entryLe_iff, entryLe_iff]
    rcases Nat.lt_trichotomy (entryNumTypes a) (entryNumTypes b) with h | h | h
    · exact Or.inl (Or.inl h)
    · rcases Nat.lt_trichotomy (entryKindNum a) (entryKindNum b) with hk | hk | hk
      · by_cases hn : entryNumTypes a = 1
        · exact Or.inl (Or.inr ⟨h, Or.inl ⟨hn, hk⟩⟩)
        · rcases strLe_total a.javaSourcePath b.javaSourcePath with hp | hp
          · exact Or.inl (Or.inr ⟨h, Or.inr ⟨Or.inl hn, hp⟩⟩)
          · exact Or.inr (Or.inr ⟨h.symm, Or.inr ⟨Or.inl (h ▸ hn), hp⟩⟩)
      · rcases strLe_total a.javaSourcePath b.javaSourcePath with hp | hp
        · exact Or.inl (Or.inr ⟨h, Or.inr ⟨Or.inr hk, hp⟩⟩)
        · exact Or.inr (Or.inr ⟨h.symm, Or.inr ⟨Or.inr hk.symm, hp⟩⟩)
      · by_cases hn : entryNumTypes b = 1
        · exact Or.inr (Or.inr ⟨h.symm, Or.inl ⟨hn, hk⟩⟩)
        · rcases strLe_total a.javaSourcePath b.javaSourcePath with hp | hp
          · exact Or.inl (Or.inr ⟨h, Or.inr ⟨Or.inl (fun ha => hn (h ▸ ha)), hp⟩⟩)
          · exact Or.inr (Or.inr ⟨h.symm, Or.inr ⟨Or.inl hn, hp⟩⟩)
    · exact Or.inr (Or.inl h)⟩

instance : IsTrans PortingEntry entryLe :=
  ⟨fun a b c hab hbc => by
    rw [entryLe_iff] at hab hbc ⊢
    rcases hab with h1 | ⟨e1, hab2⟩
    · rcases hbc with h2 | ⟨e2, _⟩
      · exact Or.inl (h1.trans h2)
      · exact Or.inl (e2 ▸ h1)
    · rcases hbc with h2 | ⟨e2, hbc2⟩
      · exact Or.inl (e1 ▸ h2)
      · refine Or.inr ⟨e1.trans e2, ?_⟩
        rcases hab2 with ⟨hna1, hk1⟩ | ⟨hg1, hp1⟩ <;>
          rcases hbc2 with ⟨hnb1, hk2⟩ | ⟨hg2, hp2⟩
        · exact Or.inl ⟨hna1, hk1.trans hk2⟩
        · rcases hg2 with hn | hk
          · exact absurd (e1 ▸ hna1) hn
          · exact Or.inl ⟨hna1, hk ▸ hk1⟩
        · rcases hg1 with hn | hk
          · exact absurd (e1.symm ▸ hnb1) hn
          · exact Or.inl ⟨e1 ▸ hnb1, hk ▸ hk2⟩
        · refine Or.inr ⟨?_, strLe_trans hp1 hp2⟩
          by_cases hn : entryNumTypes a = 1
          · rcases hg1 with hg1 | hg1
            · exact absurd hn hg1
            · rcases hg2 with hg2 | hg2
              · exact absurd (e1 ▸ hn) hg2
              · exact Or.inr (hg1.trans hg2)
          · exact Or.inl hn⟩

/-! ## Fixtures

Concrete source files and symbol tables used to evaluate the embedded code
at specific inputs. -/

/-- A 21-line Java file whose type `Foo` spans lines 10-20 with inner type
`Bar` at lines 14-16; the content of line 21 is a parameter. -/
def fooLines (c21 : String) : List String :=
  ["package p;", "", "", "", "", "", "", "", "int x;",
   "class Foo \x7b", "    int a;", "    int b;", "    int c;",
   "    class Bar \x7b", "        int d;", "    \x7d",
   "    int e;", "    int f;", "    int g;", "\x7d", c21]

/-- The symbol of `Foo` (declared range 10-20) with inner `Bar` (14-16). -/
def fooSymbol : Symbol :=
  .mk "Foo" .class_ "r/Foo.java" 10 20 none
    (.cons (.mk "Bar" .class_ "r/Foo.java" 14 16 none .nil) .nil)

/-- Lines 10-13 and 17-20 of the fixture file, the expected extraction. -/
def fooExpectedLines : List (Nat × String) :=
  [(10, "class Foo \x7b"), (11, "    int a;"), (12, "    int b;"), (13, "    int c;"),
   (17, "    int e;"), (18, "    int f;"), (19, "    int g;"), (20, "\x7d")]

/-- A symbol table with a class `A` containing `B` containing `C`: three
levels of type nesting declared in file `F`. -/
def nestedSymbols : List Symbol :=
  [.mk "A" .class_ "F" 1 30 none
    (.cons (.mk "B" .class_ "F" 2 20 none
      (.cons (.mk "C" .class_ "F" 3 10 none .nil) .nil)) .nil)]

/-- The symbols of the nesting fixture, for instantiating lemmas. -/
def symA : Symbol :=
  .mk "A" .class_ "F" 1 30 none
    (.cons (.mk "B" .class_ "F" 2 20 none
      (.cons (.mk "C" .class_ "F" 3 10 none .nil) .nil)) .nil)

def symB : Symbol :=
  .mk "B" .class_ "F" 2 20 none (.cons (.mk "C" .class_ "F" 3 10 none .nil) .nil)

/-- Two same-named types in different files, an ambiguous pair. -/
def fooClassA : Symbol := .mk "Foo" .class_ "a.java" 1 2 none .nil

def fooEnumB : Symbol := .mk "Foo" .enum_ "b.java" 3 4 none .nil

/-- The extracted range of `Foo` from the fixture file (contains a sentinel
entry at index 8 summarising the excluded inner type). -/
def fooRange : List Entry := extractTypeContent (fooLines "int y;") fooSymbol

/-- Reference table of the plan-builder scenario: one top-level enum
`MixBlend` and one top-level class `Animation`, both declared in
`r/Animation.java`. -/
def animationLsp : LspData := ⟨[
  .mk "MixBlend" .enum_ "r/Animation.java" 5 9 none .nil,
  .mk "Animation" .class_ "r/Animation.java" 11 50 none .nil]⟩

/-- A run whose two per-runtime indexer invocations exit non-zero while the
other subprocesses succeed. -/
def failingIndexerEnv : RunEnv :=
  ⟨.ok, true, .fail, true, .fail, none, none, .ok, [⟨.M, "Animation.java"⟩], "r"⟩

/-! ## C10: compilation-check exit-code policy -/

/-- Claim C10: for every existing input file the compilation-check command
terminates with exit code 0 even when the compiler invocation fails; the
failure is reported only through the extracted first diagnostic block or the
20-line fallback, while a non-zero exit occurs only for missing arguments, a
nonexistent input file, or an unreadable plan store. -/
theorem compileCpp_exit_policy (env : CompileEnv) :
    (3 ≤ env.argc → env.fileExists = true → env.planSpineDir ≠ none →
      exitCode (compileCpp env) = 0) ∧
    (env.argc < 3 ∨ env.fileExists = false ∨ env.planSpineDir = none →
      compileCpp env = .exitEarly 1) ∧
    (∀ outLines, 3 ≤ env.argc → env.fileExists = true → env.planSpineDir ≠ none →
      env.compileResult = some outLines →
      (∃ s e, compileCpp env = .finished (sliceLines outLines s e)) ∨
      compileCpp env = .finished ("Compilation failed:" :: outLines.take 20)) := by
  refine ⟨?_, ?_, ?_⟩
  · intro hargc hex hplan
    simp only [compileCpp, hex]
    rw [if_neg (by omega), if_neg (by simp)]
    cases hpd : env.planSpineDir with
    | none => exact absurd hpd hplan
    | some d =>
      cases hcr : env.compileResult with
      | none => rfl
      | some outLines =>
        dsimp only
        split_ifs <;> rfl
  · intro h
    simp only [compileCpp]
    rcases h with h | h | h
    · rw [if_pos h]
    · rw [h]
      split_ifs with h1 h2
      · rfl
      · rfl
      · exact absurd rfl h2
    · rw [h]
      split_ifs <;> rfl
  · intro outLines hargc hex hplan hcr
    simp only [compileCpp, hex, hcr]
    rw [if_neg (by omega), if_neg (by simp)]
    cases hpd : env.planSpineDir with
    | none => exact absurd hpd hplan
    | some d =>
      dsimp only
      split_ifs <;> first | exact Or.inl ⟨_, _, rfl⟩ | exact Or.inr rfl

/-- Witness for C10 at concrete environments: a failing compiler run on an
existing file exits 0, and a missing input file exits 1. -/
theorem compileCpp_exit_policy_witness :
    exitCode (compileCpp ⟨3, true, some "d", some ["a.cpp:1:2: error: bad"]⟩) = 0 ∧
    compileCpp ⟨3, false, some "d", none⟩ = .exitEarly 1 :=
  ⟨(compileCpp_exit_policy _).1 (by decide) rfl (by decide),
   (compileCpp_exit_policy _).2.1 (Or.inr (Or.inl rfl))⟩

/-! ## C3: ambiguity handling of the type lookups -/

/-- Counterexample to claim C3: the old symbol table contains two types named
`Foo`, so the old-table lookup is ambiguous, yet the diff command's
resolution succeeds and silently uses the first old match instead of
reporting the ambiguity. -/
theorem diffResolve_old_ambiguity_counterexample :
    2 ≤ (findType [fooClassA, fooEnumB] "Foo").length ∧
    readJavaTypeDiffResolve [fooClassA, fooEnumB] [fooClassA] "Foo" =
      .ok (fooClassA, some fooClassA) :=
  ⟨by decide, rfl⟩

/-- Claim C3 as amended: the extraction command and the diff command's
new-table lookup report ambiguity listing every match's file and kind, but
the diff command's old-table lookup performs no ambiguity check and silently
takes the first match of the old table. -/
theorem lookup_ambiguity_policy :
    (∀ (syms : List Symbol) (name : String) (m1 m2 : Symbol × Option Symbol) ms,
      findType syms name = m1 :: m2 :: ms →
      readJavaTypeResolve syms name =
        .error (.ambiguous ((m1 :: m2 :: ms).map (fun p => (p.1.file, p.1.kind))))) ∧
    (∀ (oldS newS : List Symbol) (name : String) (m1 m2 : Symbol × Option Symbol) ms,
      findType newS name = m1 :: m2 :: ms →
      readJavaTypeDiffResolve oldS newS name =
        .error (.ambiguous ((m1 :: m2 :: ms).map (fun p => (p.1.file, p.1.kind))))) ∧
    (∀ (oldS newS : List Symbol) (name : String) (m : Symbol × Option Symbol),
      findType newS name = [m] →
      readJavaTypeDiffResolve oldS newS name =
        .ok (m.1, ((findType oldS name).head?).map (fun p => p.1))) := by
  refine ⟨?_, ?_, ?_⟩
  · intro syms name m1 m2 ms h
    simp only [readJavaTypeResolve, h]
  · intro oldS newS name m1 m2 ms h
    simp only [readJavaTypeDiffResolve, h]
  · intro oldS newS name m h
    simp only [readJavaTypeDiffResolve, h]

/-- Witness for C3 amended at the two-`Foo` fixture tables. -/
theorem lookup_ambiguity_policy_witness :
    readJavaTypeResolve [fooClassA, fooEnumB] "Foo" =
      .error (.ambiguous [("a.java", SKind.class_), ("b.java", SKind.enum_)]) ∧
    readJavaTypeDiffResolve [] [fooClassA, fooEnumB] "Foo" =
      .error (.ambiguous [("a.java", SKind.class_), ("b.java", SKind.enum_)]) ∧
    readJavaTypeDiffResolve [fooClassA, fooEnumB] [fooClassA] "Foo" =
      .ok (fooClassA, some fooClassA) :=
  ⟨lookup_ambiguity_policy.1 [fooClassA, fooEnumB] "Foo" (fooClassA, none) (fooEnumB, none) [] rfl,
   lookup_ambiguity_policy.2.1 [] [fooClassA, fooEnumB] "Foo" (fooClassA, none) (fooEnumB, none) [] rfl,
   lookup_ambiguity_policy.2.2 [fooClassA, fooEnumB] [fooClassA] "Foo" (fooClassA, none) rfl⟩

/-! ## C2: depth of the nested-type flattening -/

/-- Counterexample to claim C2: in the fixture table, `C` is nested two
levels below the top-level type `A` (a child of the child `B`), yet the
extracted type list of file `F` contains `C`; nested types are flattened
recursively, not only one level deep. -/
theorem extractTypesFromFile_depth2_counterexample :
    (extractTypesFromFile nestedSymbols "F").map (fun t => (t.name, t.isInner)) =
      [("A", false), ("B", true), ("C", true)] := by decide

theorem mem_extractInnerTypesList {t : TypeInfo} {c : Symbol} :
    ∀ cs : SymList, c ∈ cs.toList → isTypeKind c.kind = true →
      t ∈ extractInnerTypes true c → t ∈ extractInnerTypesList cs
  | .nil, h, _, _ => by simp [SymList.toList] at h
  | .cons c0 rest, hmem, hk, ht => by
    simp only [SymList.toList, List.mem_cons] at hmem
    simp only [extractInnerTypesList]
    rcases hmem with rfl | hmem
    · exact List.mem_append_left _ (by rw [if_pos hk]; exact ht)
    · exact List.mem_append_right _ (mem_extractInnerTypesList rest hmem hk ht)

mutual
theorem extractInnerTypes_isInner (s : Symbol) :
    ∀ t ∈ extractInnerTypes true s, t.isInner = true := by
  cases s with
  | mk n k f st en d cs =>
    intro t ht
    simp only [extractInnerTypes] at ht
    rcases List.mem_append.mp ht with h | h
    · split_ifs at h with hk
      · rw [List.mem_singleton] at h
        subst h
        rfl
      · simp at h
    · exact extractInnerTypesList_isInner cs t h

theorem extractInnerTypesList_isInner (cs : SymList) :
    ∀ t ∈ extractInnerTypesList cs, t.isInner = true := by
  cases cs with
  | nil => intro t ht; simp [extractInnerTypesList] at ht
  | cons c rest =>
    intro t ht
    simp only [extractInnerTypesList] at ht
    rcases List.mem_append.mp ht with h | h
    · split_ifs at h with hk
      · exact extractInnerTypes_isInner c t h
      · simp at h
    · exact extractInnerTypesList_isInner rest t h
end

/-- Claim C2 as amended: the per-file type collection flattens nested types
at every depth, not only one level deep.  Whenever `c` is a type-kind child
of `s`, everything collected below `c` (with `isInner = true`) also appears
in the collection for `s`, so the recursion descends arbitrarily far; and
every type collected below the top level is marked `isInner = true`. -/
theorem extractInnerTypes_flattens_all_depths :
    (∀ (b : Bool) (s c : Symbol), c ∈ s.children.toList → isTypeKind c.kind = true →
      ∀ t ∈ extractInnerTypes true c, t ∈ extractInnerTypes b s) ∧
    (∀ s : Symbol, ∀ t ∈ extractInnerTypes true s, t.isInner = true) := by
  constructor
  · intro b s c hmem hk t ht
    cases s with
    | mk n k f st en d cs =>
      simp only [extractInnerTypes]
      exact List.mem_append_right _ (mem_extractInnerTypesList cs hmem hk ht)
  · exact extractInnerTypes_isInner

/-- Witness for C2 amended: the depth-2 type `C` of the fixture, collected
below `B`, appears in the collection of the top-level `A`. -/
theorem extractInnerTypes_flattens_all_depths_witness :
    (⟨"C", SKind.class_, 3, 10, true, "pending", []⟩ : TypeInfo) ∈ extractInnerTypes false symA :=
  extractInnerTypes_flattens_all_depths.1 false symA symB (List.mem_singleton_self _)
    rfl _ (by decide)

/-! ## C6: indexer subprocess failure and the run flow -/

/-- Counterexample to claim C6: in this run both per-runtime indexer
invocations exit non-zero, yet the run is not aborted — it continues to plan
construction and completes with a plan. -/
theorem mainRun_indexer_failure_counterexample :
    failingIndexerEnv.refIndexer = .fail ∧ failingIndexerEnv.targetIndexer = .fail ∧
    mainRun failingIndexerEnv =
      .completed (buildPlan "r" none none [⟨.M, "Animation.java"⟩]) :=
  ⟨rfl, rfl, rfl⟩

/-- A run whose uncaught subprocess calls succeed completes with the plan
built from the loaded symbol-table files and change list, independently of
the per-runtime indexer outcomes. -/
theorem mainRun_completes (env : RunEnv) (h1 : env.llmGen = .ok) (h2 : env.gitDiff = .ok) :
    mainRun env = .completed (buildPlan env.dir env.refLspFile env.targetLspFile env.changes) := by
  simp only [mainRun, mainTry, h1, h2]
  rfl

/-- Claim C6 as amended: a per-runtime indexer failure is caught inside
`generateLspJson` (logged, no exception escapes) and the run continues to
plan construction regardless of the indexer outcomes; only the subprocess
calls outside that helper — the documentation generation and the git diff —
abort the run. -/
theorem indexer_failure_does_not_abort :
    generateLspJson .fail = false ∧
    (∀ env : RunEnv, env.llmGen = .ok → env.gitDiff = .ok →
      mainRun env = .completed (buildPlan env.dir env.refLspFile env.targetLspFile env.changes)) ∧
    (∀ env : RunEnv, env.llmGen = .fail → mainRun env = .aborted) ∧
    (∀ env : RunEnv, env.gitDiff = .fail → mainRun env = .aborted) := by
  refine ⟨rfl, ?_, ?_, ?_⟩
  · exact mainRun_completes
  · intro env h
    simp only [mainRun, mainTry, h]
    rfl
  · intro env h
    cases hl : env.llmGen <;> simp only [mainRun, mainTry, hl, h] <;> rfl

/-- Witness for C6 amended at the failing-indexer run. -/
theorem indexer_failure_does_not_abort_witness :
    mainRun failingIndexerEnv =
      .completed (buildPlan failingIndexerEnv.dir failingIndexerEnv.refLspFile
        failingIndexerEnv.targetLspFile failingIndexerEnv.changes) :=
  indexer_failure_does_not_abort.2.1 failingIndexerEnv rfl rfl

/-! ## C4: the `Foo`/`Bar` extraction scenario and line 21 -/

/-- Counterexample to claim C4: when line 21 (just outside the declared
range 10-20) trims to a closing brace, the extraction command's
closing-brace recovery emits it, so line 21 does appear in the output for
that content. -/
theorem rjExtract_line21_counterexample :
    fooSymbol.endLine = 20 ∧
    (21, "\x7d") ∈ (rjExtract (fooLines "\x7d") fooSymbol false).realLines :=
  ⟨rfl, by decide⟩

theorem rjStep_foldl_bound (lines : List String) (skips : List (Nat × Nat)) (tsl B : Nat) :
    ∀ l : List Nat, (∀ i ∈ l, i + 1 ≤ B) →
      ∀ acc : List (Nat × String) × String, (∀ q ∈ acc.1, q.1 ≤ B) →
      ∀ p ∈ (l.foldl (rjStep lines skips tsl) acc).1, p.1 ≤ B := by
  intro l
  induction l with
  | nil => intro _ acc hacc p hp; exact hacc p hp
  | cons i rest ih =>
    intro hB acc hacc p hp
    rw [List.foldl_cons] at hp
    refine ih (fun j hj => hB j (List.mem_cons_of_mem _ hj)) _ ?_ p hp
    intro q hq
    simp only [rjStep] at hq
    split_ifs at hq
    · exact hacc q hq
    all_goals
      rcases List.mem_append.mp hq with h | h
      · exact hacc q h
      · rw [List.mem_singleton] at h
        subst h
        simpa using hB i (List.mem_cons_self _ _)

/-- Every line number emitted by the extraction command is at most one past
the declared end of the type, and reaches `endLine + 1` only when the line
after the declared end trims to a closing brace. -/
theorem rjExtract_lineNum_bound (lines : List String) (ti : Symbol) (inner : Bool) :
    ∀ p ∈ (rjExtract lines ti inner).realLines,
      p.1 ≤ ti.endLine + 1 ∧
      (p.1 = ti.endLine + 1 → trimStr (lines.getD ti.endLine "") = "\x7d") := by
  intro p hp
  simp only [rjExtract] at hp
  by_cases hc : ti.endLine < lines.length ∧ trimStr (lines.getD ti.endLine "") = "\x7d"
  · rw [if_pos hc] at hp
    have hb := rjStep_foldl_bound lines _ _ (ti.endLine + 1) _
      (fun i hi => by rw [List.mem_range'_1] at hi; omega) ([], "") (by simp) p hp
    exact ⟨hb, fun _ => hc.2⟩
  · rw [if_neg hc] at hp
    have hb := rjStep_foldl_bound lines _ _ ti.endLine _
      (fun i hi => by rw [List.mem_range'_1] at hi; omega) ([], "") (by simp) p hp
    exact ⟨by omega, fun h => by omega⟩

/-- Claim C4 as amended: extracting `Foo` (declared lines 10-20, inner `Bar`
at 14-16) yields exactly the real lines 10-13 and 17-20 plus the one summary
note about the excluded inner class; line 21 is emitted exactly when its
content trims to a closing brace (the closing-brace recovery of the
extractor), and for any other content of line 21 it never appears. -/
theorem rjExtract_foo_scenario :
    rjExtract (fooLines "int y;") fooSymbol false =
      ⟨fooExpectedLines, some "\n\t// 1 inner class removed"⟩ ∧
    rjExtract (fooLines "\x7d") fooSymbol false =
      ⟨fooExpectedLines ++ [(21, "\x7d")], some "\n\t// 1 inner class removed"⟩ ∧
    (∀ c21 s, (21, s) ∈ (rjExtract (fooLines c21) fooSymbol false).realLines →
      trimStr c21 = "\x7d") := by
  refine ⟨by rfl, by rfl, ?_⟩
  intro c21 s hmem
  exact (rjExtract_lineNum_bound (fooLines c21) fooSymbol false (21, s) hmem).2 rfl

/-- Witness for C4 amended: the brace-content line 21 of the fixture is
emitted, and the theorem concludes its trimmed content is the brace. -/
theorem rjExtract_foo_scenario_witness : trimStr "\x7d" = "\x7d" :=
  rjExtract_foo_scenario.2.2 "\x7d" "\x7d" (by decide)

/-! ## Fold lemmas for the plan builder -/

theorem mem_processChange_foldl (dir : String) (refLsp targetLsp : Option LspData) :
    ∀ (changes : List ChangeItem) (acc : List DeletedFile × List PortingEntry)
      (e : PortingEntry), e ∈ (changes.foldl (processChange dir refLsp targetLsp) acc).2 →
      e ∈ acc.2 ∨ ∃ it ∈ changes,
        (it.status = ChangeStatus.A ∨ it.status = ChangeStatus.M) ∧
        endsWithStr it.relativePath ".java" = true ∧
        e = ⟨dir ++ "/" ++ it.relativePath,
             entryTypes refLsp targetLsp (dir ++ "/" ++ it.relativePath)⟩ := by
  intro changes
  induction changes with
  | nil => intro acc e he; exact Or.inl he
  | cons it rest ih =>
    intro acc e he
    rw [List.foldl_cons] at he
    rcases ih _ e he with h | ⟨it', hmem, hst, hj, heq⟩
    · rcases it with ⟨st, path⟩
      cases st with
      | D => exact Or.inl h
      | A =>
        simp only [processChange] at h
        split_ifs at h with hj
        · rcases List.mem_append.mp h with h' | h'
          · exact Or.inl h'
          · rw [List.mem_singleton] at h'
            exact Or.inr ⟨⟨.A, path⟩, List.mem_cons_self _ _, Or.inl rfl, hj, h'⟩
        · exact Or.inl h
      | M =>
        simp only [processChange] at h
        split_ifs at h with hj
        · rcases List.mem_append.mp h with h' | h'
          · exact Or.inl h'
          · rw [List.mem_singleton] at h'
            exact Or.inr ⟨⟨.M, path⟩, List.mem_cons_self _ _, Or.inr rfl, hj, h'⟩
        · exact Or.inl h
      | other => exact Or.inl h
    · exact Or.inr ⟨it', List.mem_cons_of_mem _ hmem, hst, hj, heq⟩

theorem mem_foldl_processChange_of_mem (dir : String) (refLsp targetLsp : Option LspData) :
    ∀ (changes : List ChangeItem) (acc : List DeletedFile × List PortingEntry)
      (e : PortingEntry), e ∈ acc.2 →
      e ∈ (changes.foldl (processChange dir refLsp targetLsp) acc).2 := by
  intro changes
  induction changes with
  | nil => intro acc e he; exact he
  | cons it rest ih =>
    intro acc e he
    rw [List.foldl_cons]
    refine ih _ e ?_
    rcases it with ⟨st, path⟩
    cases st with
    | D => exact he
    | A =>
      simp only [processChange]
      split_ifs
      · exact List.mem_append_left _ he
      · exact he
    | M =>
      simp only [processChange]
      split_ifs
      · exact List.mem_append_left _ he
      · exact he
    | other => exact he

theorem mkEntry_mem_foldl (dir : String) (refLsp targetLsp : Option LspData) :
    ∀ (changes : List ChangeItem) (acc : List DeletedFile × List PortingEntry)
      (it : ChangeItem), it ∈ changes →
      (it.status = ChangeStatus.A ∨ it.status = ChangeStatus.M) →
      endsWithStr it.relativePath ".java" = true →
      (⟨dir ++ "/" ++ it.relativePath,
        entryTypes refLsp targetLsp (dir ++ "/" ++ it.relativePath)⟩ : PortingEntry) ∈
        (changes.foldl (processChange dir refLsp targetLsp) acc).2 := by
  intro changes
  induction changes with
  | nil => intro acc it h; simp at h
  | cons it0 rest ih =>
    intro acc it hmem hst hj
    rw [List.foldl_cons]
    rcases List.mem_cons.mp hmem with rfl | hmem'
    · refine mem_foldl_processChange_of_mem dir refLsp targetLsp rest _ _ ?_
      rcases it with ⟨st, path⟩
      rcases hst with h | h <;> cases h <;>
        · simp only [processChange]
          rw [if_pos hj]
          exact List.mem_append_right _ (List.mem_singleton_self _)
    · exact ih _ it hmem' hst hj

/-- The per-file `types` list produced by the builder is sorted by the
kind-priority-then-name order (the attached candidate files and porting
state do not affect the comparator's keys). -/
theorem buildTypes_sorted (syms : List Symbol) (targetLsp : Option LspData) (abs : String)
    (ts : List TypeInfo) (h : buildTypes syms targetLsp abs = some ts) :
    ts.Sorted typeLe := by
  simp only [buildTypes] at h
  split_ifs at h
  rw [Option.some_inj] at h
  subst h
  exact List.Pairwise.map _ (fun a b hab => hab)
    (List.sorted_insertionSort typeLe (extractTypesFromFile syms abs))

/-! ## C7: within-file type ordering and the `MixBlend`/`Animation` scenario -/

/-- Claim C7: for the change list `[(Modified, "Animation.java")]` and a
reference table declaring the enum `MixBlend` and the class `Animation` in
that file, the plan has a single entry whose `types` are exactly
`[MixBlend (enum), Animation (class)]`; and in general every entry's
`types` sequence is sorted by kind priority enum < interface < class, then
by name. -/
theorem within_file_type_order :
    (buildPlan "r" (some animationLsp) none [⟨.M, "Animation.java"⟩]).portingOrder =
      [⟨"r/Animation.java",
        some [⟨"MixBlend", SKind.enum_, 5, 9, false, "pending", []⟩,
              ⟨"Animation", SKind.class_, 11, 50, false, "pending", []⟩]⟩] ∧
    (∀ (dir : String) (refLsp targetLsp : Option LspData) (changes : List ChangeItem)
       (e : PortingEntry) (ts : List TypeInfo),
      e ∈ (buildPlan dir refLsp targetLsp changes).portingOrder → e.types = some ts →
      ts.Sorted typeLe) := by
  refine ⟨by rfl, ?_⟩
  intro dir refLsp targetLsp changes e ts he hts
  unfold buildPlan at he
  rw [List.mem_insertionSort] at he
  rcases mem_processChange_foldl dir refLsp targetLsp changes ([], []) e he with h | ⟨it, _, _, _, rfl⟩
  · simp at h
  · dsimp only at hts
    cases refLsp with
    | none => simp [entryTypes] at hts
    | some lsp =>
      simp only [entryTypes] at hts
      exact buildTypes_sorted lsp.symbols targetLsp _ ts hts

/-- Witness for C7 at the scenario inputs: the single entry of the scenario
plan has a sorted `types` sequence. -/
theorem within_file_type_order_witness :
    List.Sorted typeLe
      [(⟨"MixBlend", SKind.enum_, 5, 9, false, "pending", []⟩ : TypeInfo),
       ⟨"Animation", SKind.class_, 11, 50, false, "pending", []⟩] :=
  within_file_type_order.2 "r" (some animationLsp) none [⟨.M, "Animation.java"⟩]
    ⟨"r/Animation.java",
      some [⟨"MixBlend", SKind.enum_, 5, 9, false, "pending", []⟩,
            ⟨"Animation", SKind.class_, 11, 50, false, "pending", []⟩]⟩
    _ (by rw [within_file_type_order.1]; exact List.mem_singleton_self _) rfl

/-! ## C8: determinism of the plan ordering -/

/-- Claim C8: the plan builder is deterministic — identical inputs produce
byte-identical `portingOrder` sequences (the builder is a function of its
inputs), and the produced sequence is sorted by the total file-level
comparator, whose final file-path tie-break fixes the relative order of
entries with equal type counts. -/
theorem buildPlan_deterministic :
    (∀ (d₁ d₂ : String) (r₁ r₂ t₁ t₂ : Option LspData) (c₁ c₂ : List ChangeItem),
      d₁ = d₂ → r₁ = r₂ → t₁ = t₂ → c₁ = c₂ →
      (buildPlan d₁ r₁ t₁ c₁).portingOrder = (buildPlan d₂ r₂ t₂ c₂).portingOrder) ∧
    (∀ (d : String) (r t : Option LspData) (c : List ChangeItem),
      ((buildPlan d r t c).portingOrder).Sorted entryLe) := by
  constructor
  · intro d₁ d₂ r₁ r₂ t₁ t₂ c₁ c₂ hd hr ht hc
    subst hd; subst hr; subst ht; subst hc
    rfl
  · intro d r t c
    unfold buildPlan
    exact List.sorted_insertionSort entryLe _

/-- Witness for C8 at concrete inputs. -/
theorem buildPlan_deterministic_witness :
    (buildPlan "r" (some animationLsp) none [⟨.M, "Animation.java"⟩]).portingOrder =
      (buildPlan "r" (some animationLsp) none [⟨.M, "Animation.java"⟩]).portingOrder ∧
    ((buildPlan "r" (some animationLsp) none [⟨.M, "Animation.java"⟩]).portingOrder).Sorted
      entryLe :=
  ⟨buildPlan_deterministic.1 "r" "r" (some animationLsp) (some animationLsp) none none
      [⟨.M, "Animation.java"⟩] [⟨.M, "Animation.java"⟩] rfl rfl rfl rfl,
   buildPlan_deterministic.2 "r" (some animationLsp) none [⟨.M, "Animation.java"⟩]⟩

/-! ## C9: graceful degradation on missing symbol tables -/

/-- Claim C9: with no target symbol table the run still completes and every
type of the produced plan has an empty `candidateFiles` set; with no
reference symbol table, file-level entries (with no type enrichment) are
still recorded for every added or modified `.java` change; and a run whose
uncaught subprocess calls succeed always completes with a plan. -/
theorem missing_tables_degrade_gracefully :
    (∀ (dir : String) (refLsp : Option LspData) (changes : List ChangeItem)
       (e : PortingEntry) (ts : List TypeInfo) (t : TypeInfo),
      e ∈ (buildPlan dir refLsp none changes).portingOrder → e.types = some ts →
      t ∈ ts → t.candidateFiles = []) ∧
    (∀ (dir : String) (targetLsp : Option LspData) (changes : List ChangeItem)
       (it : ChangeItem), it ∈ changes →
      (it.status = ChangeStatus.A ∨ it.status = ChangeStatus.M) →
      endsWithStr it.relativePath ".java" = true →
      (⟨dir ++ "/" ++ it.relativePath, none⟩ : PortingEntry) ∈
        (buildPlan dir none targetLsp changes).portingOrder) ∧
    (∀ env : RunEnv, env.llmGen = .ok → env.gitDiff = .ok →
      mainRun env =
        .completed (buildPlan env.dir env.refLspFile env.targetLspFile env.changes)) := by
  refine ⟨?_, ?_, mainRun_completes⟩
  · intro dir refLsp changes e ts t he hts htm
    unfold buildPlan at he
    rw [List.mem_insertionSort] at he
    rcases mem_processChange_foldl dir refLsp none changes ([], []) e he with h | ⟨it, _, _, _, rfl⟩
    · simp at h
    · dsimp only at hts
      cases refLsp with
      | none => simp [entryTypes] at hts
      | some lsp =>
        simp only [entryTypes, buildTypes] at hts
        split_ifs at hts
        rw [Option.some_inj] at hts
        subst hts
        rcases List.mem_map.mp htm with ⟨t0, _, rfl⟩
        rfl
  · intro dir targetLsp changes it hmem hst hj
    unfold buildPlan
    rw [List.mem_insertionSort]
    have h := mkEntry_mem_foldl dir none targetLsp changes ([], []) it hmem hst hj
    exact h

/-- Witness for C9 at concrete inputs: the single type of the
target-table-less scenario plan has no candidate files, the entry for a
modified Java file exists when the reference table is missing, and the
failing-indexer run completes. -/
theorem missing_tables_degrade_gracefully_witness :
    (⟨"MixBlend", SKind.enum_, 5, 9, false, "pending", []⟩ : TypeInfo).candidateFiles = [] ∧
    (⟨"r/Animation.java", none⟩ : PortingEntry) ∈
      (buildPlan "r" none none [⟨.M, "Animation.java"⟩]).portingOrder ∧
    mainRun failingIndexerEnv =
      .completed (buildPlan failingIndexerEnv.dir failingIndexerEnv.refLspFile
        failingIndexerEnv.targetLspFile failingIndexerEnv.changes) :=
  ⟨missing_tables_degrade_gracefully.1 "r" (some animationLsp) [⟨.M, "Animation.java"⟩]
      ⟨"r/Animation.java",
        some [⟨"MixBlend", SKind.enum_, 5, 9, false, "pending", []⟩,
              ⟨"Animation", SKind.class_, 11, 50, false, "pending", []⟩]⟩
      _ _ (by decide) rfl (List.mem_cons_self _ _),
   missing_tables_degrade_gracefully.2.1 "r" none [⟨.M, "Animation.java"⟩]
      ⟨.M, "Animation.java"⟩ (List.mem_singleton_self _) (Or.inr rfl) (by decide),
   missing_tables_degrade_gracefully.2.2 failingIndexerEnv rfl rfl⟩

/-! ## C5: diffing a range against itself

The first pass on two identical ranges claims, for the k-th new entry, the
k-th old entry: the invariant is that after k entries the matched prefix is
exactly the first k old flags.  The output walk on fully matched identical
ranges then emits `unchanged` for every non-sentinel and `summary` for every
sentinel. -/

theorem zip_replicate_self {α β : Type} (b : β) :
    ∀ l : List α, l.zip (List.replicate l.length b) = l.map (fun a => (a, b))
  | [] => rfl
  | a :: rest => by
    simp only [List.length_cons, List.replicate_succ, List.zip_cons_cons, List.map_cons]
    rw [zip_replicate_self b rest]

theorem findUnclaimed_map_true_append (c : String) :
    ∀ (A : List Entry) (rest : List (Entry × Bool)),
      findUnclaimed (A.map (fun a => (a, true)) ++ rest) c =
        (findUnclaimed rest c).map (· + A.length)
  | [], rest => by
    simp only [List.map_nil, List.nil_append, List.length_nil]
    cases findUnclaimed rest c <;> simp
  | a :: A', rest => by
    simp only [List.map_cons, List.cons_append, findUnclaimed, List.append_eq]
    rw [if_neg (by simp)]
    rw [findUnclaimed_map_true_append c A' rest]
    cases findUnclaimed rest c <;> simp
    omega

theorem findUnclaimed_cons_false_self (e : Entry) (rest : List (Entry × Bool)) :
    findUnclaimed ((e, false) :: rest) e.content = some 0 := by
  simp [findUnclaimed]

theorem set_replicate_true : ∀ (k : Nat) (t : List Bool),
    (List.replicate k true ++ false :: t).set k true = List.replicate k true ++ true :: t
  | 0, t => rfl
  | k + 1, t => by
    simp only [List.replicate_succ, List.cons_append]
    show true :: (List.replicate k true ++ false :: t).set k true =
      true :: (List.replicate k true ++ true :: t)
    rw [set_replicate_true k t]

theorem firstPassAux_cons (old : List Entry) (oldM : List Bool) (e : Entry)
    (rest : List Entry) (k : Nat) (h : findUnclaimed (old.zip oldM) e.content = some k) :
    firstPassAux old oldM (e :: rest) =
      ((firstPassAux old (oldM.set k true) rest).1,
       true :: (firstPassAux old (oldM.set k true) rest).2) := by
  simp only [firstPassAux, h]

theorem firstPassAux_self : ∀ (B A : List Entry),
    firstPassAux (A ++ B) (List.replicate A.length true ++ List.replicate B.length false) B =
      (List.replicate (A.length + B.length) true, List.replicate B.length true)
  | [], A => by simp [firstPassAux]
  | e :: B', A => by
    have hzip : (A ++ e :: B').zip
        (List.replicate A.length true ++ false :: List.replicate B'.length false) =
        A.map (fun a => (a, true)) ++ (e, false) :: B'.zip (List.replicate B'.length false) := by
      rw [List.zip_append (by simp), zip_replicate_self]
      simp [List.zip_cons_cons]
    have hfind : findUnclaimed ((A ++ e :: B').zip
        (List.replicate A.length true ++ false :: List.replicate B'.length false)) e.content =
        some A.length := by
      rw [hzip, findUnclaimed_map_true_append, findUnclaimed_cons_false_self]
      simp
    simp only [List.length_cons, List.replicate_succ]
    rw [firstPassAux_cons _ _ _ _ _ hfind, set_replicate_true]
    have h1 : A ++ e :: B' = (A ++ [e]) ++ B' := by simp
    have h2 : List.replicate A.length true ++ true :: List.replicate B'.length false =
        List.replicate (A ++ [e]).length true ++ List.replicate B'.length false := by
      simp [List.replicate_succ', List.append_assoc]
    rw [h1, h2, firstPassAux_self B' (A ++ [e])]
    have h3 : (A ++ [e]).length + B'.length = A.length + (B'.length + 1) := by
      simp
      omega
    rw [h3]

theorem firstPass_self (R : List Entry) :
    firstPass R R = (List.replicate R.length true, List.replicate R.length true) := by
  have h := firstPassAux_self R []
  simpa [firstPass] using h

/-- Tag assigned to each entry by a self-diff. -/
def selfTag (e : Entry) : DiffLine :=
  if e.lineNum = -1 then DiffLine.summary e.content else DiffLine.unchanged e.content

theorem walk_self_aux : ∀ (n : Nat) (mid suf : List Entry),
    2 * suf.length + mid.length ≤ n → (∀ e ∈ mid, e.lineNum = -1) →
    walk (suf.map (fun e => (e, true))) ((mid ++ suf).map (fun e => (e, true))) =
      (mid ++ suf).map selfTag := by
  intro n
  induction n with
  | zero =>
    intro mid suf hlen hmid
    have hs : suf = [] := List.length_eq_zero.mp (by omega)
    have hm : mid = [] := List.length_eq_zero.mp (by omega)
    subst hs; subst hm
    simp [walk]
  | succ n ih =>
    intro mid suf hlen hmid
    cases suf with
    | nil =>
      cases mid with
      | nil => simp [walk]
      | cons m mid' =>
        have hm : m.lineNum = -1 := hmid m (List.mem_cons_self _ _)
        simp only [List.append_nil, List.map_cons, List.map_nil] at hlen ⊢
        simp only [walk]
        rw [if_pos hm]
        have hrec := ih mid' []
          (by simp only [List.length_nil, List.length_cons] at hlen ⊢; omega)
          (fun e he => hmid e (List.mem_cons_of_mem _ he))
        simp only [List.map_nil, List.append_nil] at hrec
        rw [hrec]
        simp [selfTag, hm]
    | cons s suf' =>
      by_cases hs : s.lineNum = -1
      · have hsent : ∀ e ∈ mid ++ [s], e.lineNum = -1 := by
          intro e he
          rcases List.mem_append.mp he with h | h
          · exact hmid e h
          · rw [List.mem_singleton] at h
            subst h
            exact hs
        have hlen' : 2 * suf'.length + (mid ++ [s]).length ≤ n := by
          simp only [List.length_append, List.length_singleton, List.length_cons,
            List.length_nil] at hlen ⊢
          omega
        have hrec := ih (mid ++ [s]) suf' hlen' hsent
        simp only [List.append_assoc, List.singleton_append] at hrec
        cases mid with
        | nil =>
          simp only [List.nil_append, List.map_cons] at hrec ⊢
          simp only [walk]
          rw [if_pos hs]
          exact hrec
        | cons m mid' =>
          have hm : m.lineNum = -1 := hmid m (List.mem_cons_self _ _)
          simp only [List.cons_append, List.map_cons] at hrec ⊢
          simp only [walk]
          rw [if_pos hs]
          exact hrec
      · cases mid with
        | nil =>
          simp only [List.nil_append, List.map_cons, walk]
          rw [if_neg hs, if_neg hs]
          simp only [if_neg (by simp : ¬ (true = false))]
          have hrec := ih [] suf'
            (by simp only [List.length_nil, List.length_cons] at hlen ⊢; omega)
            (by intro e he; simp at he)
          simp only [List.nil_append] at hrec
          rw [hrec]
          simp [selfTag, hs]
        | cons m mid' =>
          have hm : m.lineNum = -1 := hmid m (List.mem_cons_self _ _)
          simp only [List.cons_append, List.map_cons, walk]
          rw [if_neg hs, if_pos hm]
          have hrec := ih mid' (s :: suf')
            (by simp only [List.length_cons] at hlen ⊢; omega)
            (fun e he => hmid e (List.mem_cons_of_mem _ he))
          simp only [List.map_cons, List.cons_append] at hrec
          rw [hrec]
          simp [selfTag, hm]

/-- Claim C5: diffing an extracted range against itself yields no `added`
and no `removed` entries; every non-sentinel line is tagged `unchanged` and
every sentinel line is emitted as a `summary` entry (the output is exactly
the per-entry self tag). -/
theorem typeDiff_self (R : List Entry) :
    typeDiff R R = R.map selfTag ∧
    ((typeDiff R R).all fun d =>
      match d with
      | DiffLine.added _ => false
      | DiffLine.removed _ => false
      | _ => true) = true := by
  have hmain : typeDiff R R = R.map selfTag := by
    by_cases h : R.length = 0
    · have hnil : R = [] := List.length_eq_zero.mp h
      subst hnil
      rfl
    · simp only [typeDiff, if_neg h]
      rw [firstPass_self]
      dsimp only
      rw [zip_replicate_self]
      have hwalk := walk_self_aux (2 * R.length) [] R (by simp) (by intro e he; simp at he)
      simpa using hwalk
  refine ⟨hmain, ?_⟩
  rw [hmain, List.all_eq_true]
  intro d hd
  rcases List.mem_map.mp hd with ⟨e, _, rfl⟩
  unfold selfTag
  split_ifs <;> rfl

/-! ## Claim C1: sentinel participation in first-pass matching

Lines 219-253 of `read-java-type-diff.js` build the content multi-maps and
run the first matching pass over the *entire* extracted ranges, sentinels
included: a sentinel entry (lineNum = -1) with the same content as another
entry claims, and is claimed as, a match (see the counterexample on the
`Foo` fixture, whose sentinel is matched against itself).  What the output
walk guarantees instead is that those sentinel matched flags are inert: the
walk tests sentinel-ness before ever consulting a flag, so resetting every
sentinel flag to `false` leaves the output unchanged, and the `summary`
output lines are exactly the new-side sentinel contents in order. -/

/-- Reset the matched flag of every sentinel entry to `false`, keeping
non-sentinel flags untouched. -/
def resetSentinelFlags (l : List (Entry × Bool)) : List (Entry × Bool) :=
  l.map (fun p => if p.1.lineNum = -1 then (p.1, false) else p)

theorem resetSentinelFlags_nil : resetSentinelFlags [] = [] := rfl

theorem resetSentinelFlags_cons (e : Entry) (m : Bool) (l : List (Entry × Bool)) :
    resetSentinelFlags ((e, m) :: l) =
      (if e.lineNum = -1 then (e, false) else (e, m)) :: resetSentinelFlags l := rfl

/-- The contents of the `summary` lines of a diff output, in order. -/
def summariesOf : List DiffLine → List String
  | [] => []
  | DiffLine.summary s :: rest => s :: summariesOf rest
  | _ :: rest => summariesOf rest

/-- The contents of the sentinel entries of a flagged range, in order. -/
def sentinelContents : List (Entry × Bool) → List String
  | [] => []
  | (f, _) :: rest =>
    if f.lineNum = -1 then f.content :: sentinelContents rest
    else sentinelContents rest

theorem walk_nil_resetSentinelFlags (new : List (Entry × Bool)) :
    walk [] (resetSentinelFlags new) = walk [] new := by
  induction new with
  | nil => rfl
  | cons p rest ih =>
    obtain ⟨f, fm⟩ := p
    rw [resetSentinelFlags_cons]
    by_cases hf : f.lineNum = -1
    · rw [if_pos hf]
      simp only [walk]
      rw [if_pos hf, if_pos hf, ih]
    · rw [if_neg hf]
      simp only [walk]
      rw [if_neg hf, if_neg hf, ih]

theorem walk_resetSentinelFlags_nil (old : List (Entry × Bool)) :
    walk (resetSentinelFlags old) [] = walk old [] := by
  induction old with
  | nil => rfl
  | cons p rest ih =>
    obtain ⟨e, em⟩ := p
    rw [resetSentinelFlags_cons]
    by_cases he : e.lineNum = -1
    · rw [if_pos he]
      simp only [walk]
      rw [if_pos he, if_pos he, ih]
    · rw [if_neg he]
      simp only [walk]
      rw [if_neg he, if_neg he, ih]

theorem walk_resetSentinelFlags_aux : ∀ (n : Nat) (old new : List (Entry × Bool)),
    old.length + new.length ≤ n →
    walk (resetSentinelFlags old) (resetSentinelFlags new) = walk old new := by
  intro n
  induction n with
  | zero =>
    intro old new hlen
    have ho : old = [] := List.length_eq_zero.mp (by omega)
    have hn : new = [] := List.length_eq_zero.mp (by omega)
    subst ho; subst hn
    rfl
  | succ n ih =>
    intro old new hlen
    cases old with
    | nil =>
      rw [resetSentinelFlags_nil]
      exact walk_nil_resetSentinelFlags new
    | cons op oldR =>
      cases new with
      | nil =>
        rw [resetSentinelFlags_nil]
        exact walk_resetSentinelFlags_nil _
      | cons np newR =>
        obtain ⟨e, em⟩ := op
        obtain ⟨f, fm⟩ := np
        simp only [List.length_cons] at hlen
        rw [resetSentinelFlags_cons, resetSentinelFlags_cons]
        by_cases he : e.lineNum = -1
        · rw [if_pos he]
          by_cases hf : f.lineNum = -1
          · rw [if_pos hf]
            simp only [walk]
            rw [if_pos he, if_pos he]
            have hrec := ih oldR ((f, fm) :: newR)
              (by simp only [List.length_cons]; omega)
            rw [resetSentinelFlags_cons, if_pos hf] at hrec
            exact hrec
          · rw [if_neg hf]
            simp only [walk]
            rw [if_pos he, if_pos he]
            have hrec := ih oldR ((f, fm) :: newR)
              (by simp only [List.length_cons]; omega)
            rw [resetSentinelFlags_cons, if_neg hf] at hrec
            exact hrec
        · rw [if_neg he]
          by_cases hf : f.lineNum = -1
          · rw [if_pos hf]
            simp only [walk]
            rw [if_neg he, if_neg he, if_pos hf, if_pos hf]
            have hrec := ih ((e, em) :: oldR) newR
              (by simp only [List.length_cons]; omega)
            rw [resetSentinelFlags_cons, if_neg he] at hrec
            rw [hrec]
          · rw [if_neg hf]
            simp only [walk]
            rw [if_neg he, if_neg he, if_neg hf, if_neg hf]
            by_cases hem : em = false
            · rw [if_pos hem, if_pos hem]
              have hrec := ih oldR ((f, fm) :: newR)
                (by simp only [List.length_cons]; omega)
              rw [resetSentinelFlags_cons, if_neg hf] at hrec
              rw [hrec]
            · rw [if_neg hem, if_neg hem]
              by_cases hfm : fm = false
              · rw [if_pos hfm, if_pos hfm]
                have hrec := ih ((e, em) :: oldR) newR
                  (by simp only [List.length_cons]; omega)
                rw [resetSentinelFlags_cons, if_neg he] at hrec
                rw [hrec]
              · rw [if_neg hfm, if_neg hfm]
                have hrec := ih oldR newR (by omega)
                rw [hrec]

theorem summariesOf_walk_nil (old : List (Entry × Bool)) :
    summariesOf (walk old []) = [] := by
  induction old with
  | nil => simp only [walk]; rfl
  | cons p rest ih =>
    obtain ⟨e, em⟩ := p
    by_cases he : e.lineNum = -1
    · simp only [walk]
      rw [if_pos he]
      exact ih
    · simp only [walk]
      rw [if_neg he]
      simp only [summariesOf]
      exact ih

theorem summariesOf_walk_aux : ∀ (n : Nat) (old new : List (Entry × Bool)),
    old.length + new.length ≤ n →
    summariesOf (walk old new) = sentinelContents new := by
  intro n
  induction n with
  | zero =>
    intro old new hlen
    have ho : old = [] := List.length_eq_zero.mp (by omega)
    have hn : new = [] := List.length_eq_zero.mp (by omega)
    subst ho; subst hn
    simp only [walk]
    rfl
  | succ n ih =>
    intro old new hlen
    cases new with
    | nil => rw [summariesOf_walk_nil old]; rfl
    | cons np newR =>
      obtain ⟨f, fm⟩ := np
      cases old with
      | nil =>
        by_cases hf : f.lineNum = -1
        · simp only [walk]
          rw [if_pos hf]
          simp only [summariesOf, sentinelContents]
          rw [if_pos hf]
          have hrec := ih [] newR (by simp only [List.length_nil, List.length_cons] at hlen ⊢; omega)
          rw [hrec]
        · simp only [walk]
          rw [if_neg hf]
          simp only [summariesOf, sentinelContents]
          rw [if_neg hf]
          exact ih [] newR (by simp only [List.length_nil, List.length_cons] at hlen ⊢; omega)
      | cons op oldR =>
        obtain ⟨e, em⟩ := op
        simp only [List.length_cons] at hlen
        by_cases he : e.lineNum = -1
        · simp only [walk]
          rw [if_pos he]
          exact ih oldR ((f, fm) :: newR) (by simp only [List.length_cons]; omega)
        · by_cases hf : f.lineNum = -1
          · simp only [walk]
            rw [if_neg he, if_pos hf]
            simp only [summariesOf, sentinelContents]
            rw [if_pos hf]
            have hrec := ih ((e, em) :: oldR) newR
              (by simp only [List.length_cons]; omega)
            rw [hrec]
          · simp only [walk]
            rw [if_neg he, if_neg hf]
            by_cases hem : em = false
            · rw [if_pos hem]
              simp only [summariesOf]
              exact ih oldR ((f, fm) :: newR) (by simp only [List.length_cons]; omega)
            · rw [if_neg hem]
              by_cases hfm : fm = false
              · rw [if_pos hfm]
                simp only [summariesOf, sentinelContents]
                rw [if_neg hf]
                exact ih ((e, em) :: oldR) newR (by simp only [List.length_cons]; omega)
              · rw [if_neg hfm]
                simp only [summariesOf, sentinelContents]
                rw [if_neg hf]
                exact ih oldR newR (by omega)

/-- Claim C1 counterexample: on the extracted `Foo` range, whose index-8
entry is the sentinel summarising the excluded inner class, the first
matching pass of the differ run on the range against itself marks the
sentinel as matched on both sides: the sentinel claims an old index and an
old sentinel index is claimed.  The content maps and the first pass are
computed over the whole range, not over non-sentinel lines only. -/
theorem firstPass_claims_sentinel_counterexample :
    (fooRange.getD 8 ⟨0, ""⟩).lineNum = -1 ∧
    (firstPass fooRange fooRange).1.getD 8 false = true ∧
    (firstPass fooRange fooRange).2.getD 8 false = true := ⟨rfl, rfl, rfl⟩

/-- Claim C1 (amended): sentinel entries do enter the content maps and the
first-pass claiming, but their matched flags are inert in the output walk:
resetting every sentinel flag to `false` on either side leaves the walk
output unchanged, and the `summary` output lines are exactly the contents
of the new-side sentinel entries, in order (so a sentinel is never emitted
as the result of a content match). -/
theorem sentinel_flags_inert (old new : List (Entry × Bool)) :
    walk (resetSentinelFlags old) (resetSentinelFlags new) = walk old new ∧
    summariesOf (walk old new) = sentinelContents new :=
  ⟨walk_resetSentinelFlags_aux (old.length + new.length) old new (le_refl _),
   summariesOf_walk_aux (old.length + new.length) old new (le_refl _)⟩

end SpinePort

